import Mathlib

/-!
Shallow embedding of the `s3-utils` repository (three Python command-line
programs) for verification of its specification.

The embedding covers:

* `fetch_file_ids.py` — the Fetcher: `parse_file_field` and
  `extract_file_ids`, which turn NDJSON records into a mapping from
  submission id to per-category lists of file identifiers.
* `delete_by_file_ids.py` — the Selective Deleter: `parse_args`,
  `collect_files_to_delete`, the confirmation/dry-run gate and the
  per-object deletion loop of `main`.
* `delete_s3_files.py` — the Prefix Deleter: the paginated
  list-objects/delete sweep.

Python values decoded from JSON are modelled by the inductive `Json`;
Python semantics that the scripts rely on (truthiness, `dict.get`,
iteration, `AttributeError`/`TypeError`) are modelled explicitly, so the
exceptional control flow of the source is visible in the embedding.
Numbers are modelled as rationals. Network transport, file I/O and the
boto3 client are abstracted: the parsed response/input document is passed
in as a value and the store is an oracle recording the calls made to it.
-/

set_option autoImplicit false

/-- The non-finite floats `nan`, `inf` and `-inf` that CPython's
`json.loads` produces for the literals `NaN`, `Infinity` and
`-Infinity`, which it accepts by default. -/
inductive NonFinite where
  | nan
  | inf
  | negInf
  deriving DecidableEq, Repr

inductive Json where
  | null
  | bool (b : Bool)
  | num (q : Rat)
  | str (s : String)
  | arr (elements : List Json)
  | obj (fields : List (String × Json))
  | nonfinite (nf : NonFinite)
  deriving Repr

namespace Json

mutual

def beq : Json → Json → Bool
  | .null, .null => true
  | .bool a, .bool b => a == b
  | .num a, .num b => a == b
  | .str a, .str b => a == b
  | .arr a, .arr b => beqElems a b
  | .obj a, .obj b => beqFields a b
  | .nonfinite a, .nonfinite b => a == b
  | _, _ => false

def beqElems : List Json → List Json → Bool
  | [], [] => true
  | x :: xs, y :: ys => beq x y && beqElems xs ys
  | _, _ => false

def beqFields : List (String × Json) → List (String × Json) → Bool
  | [], [] => true
  | (k1, v1) :: xs, (k2, v2) :: ys => k1 == k2 && beq v1 v2 && beqFields xs ys
  | _, _ => false

end

mutual

theorem beq_iff : ∀ a b : Json, beq a b = true ↔ a = b
  | .null, .null => by simp [beq]
  | .bool a, .bool b => by simp [beq]
  | .num a, .num b => by simp [beq]
  | .str a, .str b => by simp [beq]
  | .arr a, .arr b => by simp [beq, beqElems_iff a b]
  | .obj a, .obj b => by simp [beq, beqFields_iff a b]
  | .nonfinite a, .nonfinite b => by simp [beq]
  | .null, .bool _ | .null, .num _ | .null, .str _ | .null, .arr _ | .null, .obj _
  | .null, .nonfinite _
  | .bool _, .null | .bool _, .num _ | .bool _, .str _ | .bool _, .arr _ | .bool _, .obj _
  | .bool _, .nonfinite _
  | .num _, .null | .num _, .bool _ | .num _, .str _ | .num _, .arr _ | .num _, .obj _
  | .num _, .nonfinite _
  | .str _, .null | .str _, .bool _ | .str _, .num _ | .str _, .arr _ | .str _, .obj _
  | .str _, .nonfinite _
  | .arr _, .null | .arr _, .bool _ | .arr _, .num _ | .arr _, .str _ | .arr _, .obj _
  | .arr _, .nonfinite _
  | .obj _, .null | .obj _, .bool _ | .obj _, .num _ | .obj _, .str _ | .obj _, .arr _
  | .obj _, .nonfinite _
  | .nonfinite _, .null | .nonfinite _, .bool _ | .nonfinite _, .num _
  | .nonfinite _, .str _ | .nonfinite _, .arr _ | .nonfinite _, .obj _ => by
      simp [beq]

theorem beqElems_iff : ∀ a b : List Json, beqElems a b = true ↔ a = b
  | [], [] => by simp [beqElems]
  | [], _ :: _ => by simp [beqElems]
  | _ :: _, [] => by simp [beqElems]
  | x :: xs, y :: ys => by
      simp [beqElems, beq_iff x y, beqElems_iff xs ys]

theorem beqFields_iff : ∀ a b : List (String × Json), beqFields a b = true ↔ a = b
  | [], [] => by simp [beqFields]
  | [], _ :: _ => by simp [beqFields]
  | _ :: _, [] => by simp [beqFields]
  | (k1, v1) :: xs, (k2, v2) :: ys => by
      simp [beqFields, beq_iff v1 v2, beqFields_iff xs ys, and_assoc]

end

instance : DecidableEq Json := fun a b =>
  decidable_of_iff (beq a b = true) (beq_iff a b)

instance : BEq Json := ⟨fun a b => beq a b⟩

instance : LawfulBEq Json where
  eq_of_beq h := (beq_iff _ _).mp h
  rfl := (beq_iff _ _).mpr rfl

theorem beq_eq_decide (a b : Json) : (a == b) = decide (a = b) := by
  have h := beq_iff a b
  show beq a b = decide (a = b)
  rcases hb : beq a b with _ | _ <;> simp [hb] at h <;> simp [h]

/-- Python truthiness (`bool(v)`) of a JSON-decoded value: `None`, `False`,
zero, and empty strings/lists/dicts are falsy. -/
def falsy : Json → Bool
  | .null => true
  | .bool b => !b
  | .num q => q == 0
  | .str s => s.isEmpty
  | .arr xs => xs.isEmpty
  | .obj fs => fs.isEmpty
  | .nonfinite _ => false

/-- Python `dict.get(k, dflt)` on a JSON object: value of the first field
named `k` (fields built by `pyDictInsert` have unique keys), else `dflt`. -/
def getD (fs : List (String × Json)) (k : String) (dflt : Json) : Json :=
  match fs.find? (fun p => p.1 == k) with
  | some p => p.2
  | none => dflt

/-- Python `dict.get(k)`: absent keys give `None`. -/
def get (fs : List (String × Json)) (k : String) : Json :=
  getD fs k .null

/-- Whether a JSON-decoded Python value is unhashable (lists and dicts):
using one as a dictionary key raises `TypeError`. -/
def unhashable : Json → Bool
  | .arr _ => true
  | .obj _ => true
  | _ => false

end Json

/-- Python `dict` insertion `d[k] = v`: an existing key keeps its position
and gets the new value, a new key is appended. -/
def pyDictInsert {κ ν : Type} [BEq κ] (d : List (κ × ν)) (k : κ) (v : ν) :
    List (κ × ν) :=
  if d.any (fun p => p.1 == k) then
    d.map (fun p => if p.1 == k then (k, v) else p)
  else
    d ++ [(k, v)]

/-- The exceptions the embedded scripts can raise while processing a
record: `AttributeError` (calling `.get` on a non-dict) and `TypeError`
(iterating a non-iterable, or using an unhashable dict key). -/
inductive PyErr where
  | attributeError
  | typeError
  deriving DecidableEq, Repr

/-- Insertion-order whitespace skipping for the JSON grammar. -/
def skipWs : List Char → List Char
  | c :: cs =>
    if c = ' ' ∨ c = '\t' ∨ c = '\n' ∨ c = '\r' then skipWs cs else c :: cs
  | [] => []

/-- Hexadecimal value of a character, for string escapes. -/
def hexVal (c : Char) : Option Nat :=
  if '0' ≤ c ∧ c ≤ '9' then some (c.toNat - 48)
  else if 'a' ≤ c ∧ c ≤ 'f' then some (c.toNat - 87)
  else if 'A' ≤ c ∧ c ≤ 'F' then some (c.toNat - 55)
  else none

/-- The single-character string escapes of JSON. -/
def escChar (c : Char) : Option Char :=
  if c = '"' then some '"'
  else if c = '\\' then some '\\'
  else if c = '/' then some '/'
  else if c = 'b' then some (Char.ofNat 8)
  else if c = 'f' then some (Char.ofNat 12)
  else if c = 'n' then some '\n'
  else if c = 'r' then some '\r'
  else if c = 't' then some '\t'
  else none

/-- Body of a JSON string, after the opening quote: returns the decoded
characters and the input after the closing quote.  Unescaped control
characters and unknown escapes are rejected, as Python's strict decoder
does. -/
def parseStringBody : List Char → Option (List Char × List Char)
  | [] => none
  | '"' :: rest => some ([], rest)
  | '\\' :: 'u' :: a :: b :: c :: d :: rest => do
    let ha ← hexVal a
    let hb ← hexVal b
    let hc ← hexVal c
    let hd ← hexVal d
    let (s, r) ← parseStringBody rest
    some (Char.ofNat (((ha * 16 + hb) * 16 + hc) * 16 + hd) :: s, r)
  | '\\' :: e :: rest => do
    let ec ← escChar e
    let (s, r) ← parseStringBody rest
    some (ec :: s, r)
  | c :: rest =>
    if c.toNat < 32 then none
    else (parseStringBody rest).map (fun p => (c :: p.1, p.2))

/-- Longest leading run of decimal digits. -/
def takeDigits : List Char → List Char × List Char
  | c :: cs =>
    if c.isDigit then
      let (ds, rest) := takeDigits cs
      (c :: ds, rest)
    else ([], c :: cs)
  | [] => ([], [])

/-- Numeric value of a digit run. -/
def digitsToNat (ds : List Char) : Nat :=
  ds.foldl (fun n c => n * 10 + (c.toNat - 48)) 0

/-- Integer part of a JSON number: `0`, or a nonzero digit followed by
digits (leading zeros are rejected, as in the JSON grammar). -/
def parseIntPart : List Char → Option (Nat × List Char)
  | '0' :: rest => some (0, rest)
  | c :: rest =>
    if c.isDigit then
      let (ds, r) := takeDigits rest
      some (digitsToNat (c :: ds), r)
    else none
  | [] => none

/-- Optional fraction part of a JSON number, as a rational in `[0, 1)`. -/
def parseFrac : List Char → Option (Rat × List Char)
  | '.' :: rest =>
    let (ds, r) := takeDigits rest
    if ds.isEmpty then none
    else some ((digitsToNat ds : Rat) / ((10 : Rat) ^ ds.length), r)
  | cs => some (0, cs)

/-- Optional exponent part of a JSON number. -/
def parseExp : List Char → Option (Int × List Char)
  | c :: rest =>
    if c = 'e' ∨ c = 'E' then
      match rest with
      | '+' :: r2 =>
        let (ds, r3) := takeDigits r2
        if ds.isEmpty then none else some ((digitsToNat ds : Int), r3)
      | '-' :: r2 =>
        let (ds, r3) := takeDigits r2
        if ds.isEmpty then none else some (-(digitsToNat ds : Int), r3)
      | r2 =>
        let (ds, r3) := takeDigits r2
        if ds.isEmpty then none else some ((digitsToNat ds : Int), r3)
    else some (0, c :: rest)
  | [] => some (0, [])

/-- A JSON number, as a rational. -/
def parseNumber (cs : List Char) : Option (Rat × List Char) := do
  let (neg, cs1) := match cs with
    | '-' :: r => (true, r)
    | _ => (false, cs)
  let (ip, cs2) ← parseIntPart cs1
  let (fp, cs3) ← parseFrac cs2
  let (ex, cs4) ← parseExp cs3
  let base : Rat := (ip : Rat) + fp
  let mag : Rat :=
    if 0 ≤ ex then base * (10 : Rat) ^ ex.toNat else base / (10 : Rat) ^ (-ex).toNat
  some (if neg then -mag else mag, cs4)

mutual

/-- Modelled from the Python standard library: one JSON value, as consumed
by `json.loads`.  Objects are built with Python-dict insertion (duplicate
keys keep the first position and the last value).  The model covers the
strict JSON grammar plus the non-finite literals `NaN`, `Infinity` and
`-Infinity` that CPython accepts by default; numbers are exact rationals
rather than IEEE doubles. -/
def parseVal : Nat → List Char → Option (Json × List Char)
  | 0, _ => none
  | fuel + 1, cs =>
    match skipWs cs with
    | 'n' :: 'u' :: 'l' :: 'l' :: rest => some (.null, rest)
    | 't' :: 'r' :: 'u' :: 'e' :: rest => some (.bool true, rest)
    | 'f' :: 'a' :: 'l' :: 's' :: 'e' :: rest => some (.bool false, rest)
    | 'N' :: 'a' :: 'N' :: rest => some (.nonfinite .nan, rest)
    | 'I' :: 'n' :: 'f' :: 'i' :: 'n' :: 'i' :: 't' :: 'y' :: rest =>
      some (.nonfinite .inf, rest)
    | '-' :: 'I' :: 'n' :: 'f' :: 'i' :: 'n' :: 'i' :: 't' :: 'y' :: rest =>
      some (.nonfinite .negInf, rest)
    | '"' :: rest =>
      match parseStringBody rest with
      | some (s, r) => some (.str (String.mk s), r)
      | none => none
    | '[' :: rest =>
      match skipWs rest with
      | ']' :: r2 => some (.arr [], r2)
      | cs2 =>
        match parseVal fuel cs2 with
        | some (v, r2) => parseArrayRest fuel r2 [v]
        | none => none
    | '{' :: rest =>
      match skipWs rest with
      | '}' :: r2 => some (.obj [], r2)
      | cs2 => parseObjMembers fuel cs2 []
    | cs2 =>
      match parseNumber cs2 with
      | some (q, r) => some (.num q, r)
      | none => none

/-- Remaining elements of a JSON array, after at least one element. -/
def parseArrayRest : Nat → List Char → List Json → Option (Json × List Char)
  | 0, _, _ => none
  | fuel + 1, cs, acc =>
    match skipWs cs with
    | ']' :: r => some (.arr acc, r)
    | ',' :: r =>
      match parseVal fuel r with
      | some (v, r2) => parseArrayRest fuel r2 (acc ++ [v])
      | none => none
    | _ => none

/-- Members of a JSON object, starting at a key. -/
def parseObjMembers :
    Nat → List Char → List (String × Json) → Option (Json × List Char)
  | 0, _, _ => none
  | fuel + 1, cs, acc =>
    match skipWs cs with
    | '"' :: rest =>
      match parseStringBody rest with
      | some (k, r1) =>
        match skipWs r1 with
        | ':' :: r2 =>
          match parseVal fuel r2 with
          | some (v, r3) =>
            match skipWs r3 with
            | ',' :: r4 => parseObjMembers fuel r4 (pyDictInsert acc (String.mk k) v)
            | '}' :: r4 => some (.obj (pyDictInsert acc (String.mk k) v), r4)
            | _ => none
          | none => none
        | _ => none
      | none => none
    | _ => none

end

/-- Modelled from the Python standard library: `json.loads`, returning
`none` where CPython raises `json.JSONDecodeError` (see `parseVal` for the
scope of the model).  The fuel bound exceeds the input length, which
bounds the recursion depth of any parse. -/
def json_loads (s : String) : Option Json :=
  match parseVal (s.length + 2) s.toList with
  | some (v, rest) => if (skipWs rest).isEmpty then some v else none
  | none => none

/-! ## Fetcher: `fetch_file_ids.py` -/

/-- Python iteration `for f in v` over a JSON-decoded value: lists yield
their elements, strings their characters (as one-character strings), dicts
their keys; other values raise `TypeError`. -/
def pyIter : Json → Except PyErr (List Json)
  | .arr xs => .ok xs
  | .str s => .ok (s.toList.map (fun c => Json.str (String.mk [c])))
  | .obj fs => .ok (fs.map (fun p => Json.str p.1))
  | _ => .error .typeError

/-- The expression `f.get("fileId")` of `extract_file_ids`: raises
`AttributeError` when `f` is not a dict. -/
def getFileId : Json → Except PyErr Json
  | .obj fs => .ok (Json.get fs "fileId")
  | _ => .error .attributeError

/-- The list comprehension `[f.get("fileId") for f in files if
f.get("fileId")]` of `extract_file_ids`, lines 74-77: keeps the truthy
`fileId` values in order; the first exception aborts the comprehension. -/
def collectFileIds : List Json → Except PyErr (List Json)
  | [] => .ok []
  | f :: rest =>
    match getFileId f with
    | .error e => .error e
    | .ok v =>
      match collectFileIds rest with
      | .error e => .error e
      | .ok tail => .ok (if Json.falsy v then tail else v :: tail)

/-- The comprehension applied to an iterable: iterate, then filter-map. -/
def fileIdsOf (files : Json) : Except PyErr (List Json) :=
  match pyIter files with
  | .ok xs => collectFileIds xs
  | .error e => .error e

/-- `parse_file_field` of `fetch_file_ids.py`, lines 45-52: a falsy value
gives `[]`; a string is handed to `json.loads`, whose parse failure
(`JSONDecodeError`) is caught and gives `[]`; a truthy non-string makes
`json.loads` raise `TypeError`, also caught, giving `[]`.  An absent field
arrives here as `None` (`Json.null`) via `metadata.get`. -/
def parse_file_field (field_value : Json) : Json :=
  if Json.falsy field_value then .arr []
  else
    match field_value with
    | .str s =>
      match json_loads s with
      | some v => v
      | none => .arr []
    | _ => .arr []

/-- The per-submission value of the Fetcher's output mapping: the two
category lists of file identifiers. -/
structure FileLists where
  nucleotideAlignment : List Json
  siloReads : List Json
  deriving DecidableEq, Repr

/-- One iteration of the loop of `extract_file_ids`, lines 63-77: read
`metadata` (default `{}`), read `submissionId`, skip falsy ids (`ok none`),
otherwise run the two comprehensions and produce the key/value pair to
store.  `.get` on a non-dict record or metadata raises `AttributeError`;
an unhashable `submissionId` raises `TypeError` at the dict assignment,
after both comprehensions ran. -/
def recordEntry (record : Json) : Except PyErr (Option (Json × FileLists)) :=
  match record with
  | .obj fields =>
    match Json.getD fields "metadata" (.obj []) with
    | .obj mfields =>
      let sid := Json.get mfields "submissionId"
      if Json.falsy sid then .ok none
      else
        match fileIdsOf (parse_file_field (Json.get mfields "nucleotideAlignment")) with
        | .error e => .error e
        | .ok aIds =>
          match fileIdsOf (parse_file_field (Json.get mfields "siloReads")) with
          | .error e => .error e
          | .ok sIds =>
            if Json.unhashable sid then .error .typeError
            else .ok (some (sid, ⟨aIds, sIds⟩))
    | _ => .error .attributeError
  | _ => .error .attributeError

/-- The loop of `extract_file_ids` over the records, threading the result
dict. -/
def extractGo (result : List (Json × FileLists)) :
    List Json → Except PyErr (List (Json × FileLists))
  | [] => .ok result
  | r :: rest =>
    match recordEntry r with
    | .error e => .error e
    | .ok none => extractGo result rest
    | .ok (some (k, v)) => extractGo (pyDictInsert result k v) rest

/-- `extract_file_ids` of `fetch_file_ids.py`, lines 61-79: the output
mapping, as an insertion-ordered dict. -/
def extract_file_ids (records : List Json) : Except PyErr (List (Json × FileLists)) :=
  extractGo [] records

/-- First-match lookup in an insertion-ordered dict. -/
def dictFind (d : List (Json × FileLists)) (k : Json) : Option FileLists :=
  match d.find? (fun p => p.1 == k) with
  | some p => some p.2
  | none => none

/-- The submission id a record contributes, read off the record shape the
way the source reads it: the truthy `metadata.submissionId`, if any. -/
def submissionIdOf (record : Json) : Option Json :=
  match record with
  | .obj fields =>
    match Json.getD fields "metadata" (.obj []) with
    | .obj mfields =>
      let sid := Json.get mfields "submissionId"
      if Json.falsy sid then none else some sid
    | _ => none
  | _ => none

/-- The key/value pairs the records would store, in input order (defined
for records whose processing succeeds). -/
def qualifyingEntries (records : List Json) : List (Json × FileLists) :=
  records.filterMap (fun r =>
    match recordEntry r with
    | .ok (some kv) => some kv
    | _ => none)

/-! ## Selective Deleter: `delete_by_file_ids.py` -/

/-- The option flags recognised by `parse_args`. -/
structure DeleterOpts where
  dry_run : Bool
  file_type : Option String
  deriving DecidableEq, Repr

/-- The scanning loop of `parse_args`, lines 36-59: `--dry-run` sets the
flag, `--type` consumes the next argument as its value (exiting 1 when
there is none), anything else is positional.  A later `--type` overrides
an earlier one.  The error value is the exit code. -/
def parse_args_go (argv : List String) (positional : List String)
    (opts : DeleterOpts) : Except Nat (List String × DeleterOpts) :=
  match argv with
  | [] => .ok (positional, opts)
  | a :: rest =>
    if a = "--dry-run" then parse_args_go rest positional ⟨true, opts.file_type⟩
    else if a = "--type" then
      match rest with
      | v :: rest2 => parse_args_go rest2 positional ⟨opts.dry_run, some v⟩
      | [] => .error 1
    else parse_args_go rest (positional ++ [a]) opts

/-- `parse_args` of `delete_by_file_ids.py`. -/
def parse_args (argv : List String) : Except Nat (List String × DeleterOpts) :=
  parse_args_go argv [] ⟨false, none⟩

/-- One entry of the intermediate JSON document (the Fetcher's output as
re-read by the Selective Deleter): the two category lists. -/
structure FileIdEntry where
  nucleotideAlignment : List String
  siloReads : List String
  deriving DecidableEq, Repr

/-- The key construction of `collect_files_to_delete`, lines 81 and 86:
`f"{prefix}{file_id}" if prefix else file_id` — plain concatenation, with
no separator inserted. -/
def s3KeyOf (pfx : String) (file_id : String) : String :=
  if pfx.isEmpty then file_id else pfx ++ file_id

/-- The targets one submission contributes, in source order: the
`nucleotideAlignment` block (when not filtered out) then the `siloReads`
block. -/
def collectEntry (pfx : String) (file_type : Option String) (sid : String)
    (ids : FileIdEntry) : List (String × String × String) :=
  (if file_type = none ∨ file_type = some "nucleotideAlignment" then
    ids.nucleotideAlignment.map (fun fid => (sid, "nucleotideAlignment", s3KeyOf pfx fid))
  else []) ++
  (if file_type = none ∨ file_type = some "siloReads" then
    ids.siloReads.map (fun fid => (sid, "siloReads", s3KeyOf pfx fid))
  else [])

/-- `collect_files_to_delete` of `delete_by_file_ids.py`, lines 70-90:
the `(submission_id, file_type, s3_key)` triples, in iteration order of
the document. -/
def collect_files_to_delete (file_ids : List (String × FileIdEntry))
    (pfx : String) (file_type : Option String) : List (String × String × String) :=
  match file_ids with
  | [] => []
  | (sid, ids) :: rest =>
    collectEntry pfx file_type sid ids ++ collect_files_to_delete rest pfx file_type

/-- The deletion loop of `main`, lines 170-178: one `delete_object` call
per target; an exception (a `false` from the store oracle `delOk`) is
caught and counted, and the loop continues.  Returns the keys passed to
the store in order, the success count and the error count. -/
def delete_loop (delOk : String → Bool) :
    List (String × String × String) → List String × Nat × Nat
  | [] => ([], 0, 0)
  | (_, _, key) :: rest =>
    let r := delete_loop delOk rest
    (key :: r.1,
     (if delOk key then r.2.1 + 1 else r.2.1),
     (if delOk key then r.2.2 else r.2.2 + 1))

/-- Observable outcome of one run of the Selective Deleter's `main`:
process exit code (0 for a normal return), the keys passed to the store's
delete call in order, whether the confirmation prompt was read, the count
printed by `Found N files to delete` (`none` when the run exits before
that line), and the counts of the final summary. -/
structure MainOutcome where
  exit_code : Nat
  delete_calls : List String
  prompted : Bool
  found_count : Option Nat
  deleted_count : Nat
  error_count : Nat
  deriving DecidableEq, Repr

/-- The `--type` validation of `main`, lines 118-121: `if file_type and
file_type not in ("nucleotideAlignment", "siloReads")`.  The truthiness
guard means an empty-string `--type` value skips validation. -/
def badTypeFlag : Option String → Bool
  | some t => !(t == "") && !(t == "nucleotideAlignment") && !(t == "siloReads")
  | none => false

/-- `main` of `delete_by_file_ids.py`, lines 93-192, with I/O abstracted:
`file_ids` is the parsed document `load_file_ids` would return, `stdin`
the answer `input()` would read, and `delOk` the store oracle (whether
deleting a key succeeds).  In source order: argument scan, positional
count check, `--type` validation (note the truthiness guard: an empty
`--type` value skips validation), target collection, empty-list early
return, dry-run early return, confirmation gate, deletion loop.  Endpoint
normalisation and client construction only affect the unmodelled
transport. -/
def deleter_main (argv : List String) (file_ids : List (String × FileIdEntry))
    (stdin : String) (delOk : String → Bool) : MainOutcome :=
  match parse_args argv with
  | .error c => ⟨c, [], false, none, 0, 0⟩
  | .ok (positional, options) =>
    if positional.length < 7 then ⟨1, [], false, none, 0, 0⟩
    else
      let pfx := positional.getD 2 ""
      if badTypeFlag options.file_type then ⟨1, [], false, none, 0, 0⟩
      else
        let files := collect_files_to_delete file_ids pfx options.file_type
        if files.isEmpty then ⟨0, [], false, some files.length, 0, 0⟩
        else if options.dry_run then ⟨0, [], false, some files.length, 0, 0⟩
        else if !(stdin == "DELETE") then ⟨0, [], true, some files.length, 0, 0⟩
        else
          let r := delete_loop delOk files
          ⟨0, r.1, true, some files.length, r.2.1, r.2.2⟩

/-! ## Prefix Deleter: `delete_s3_files.py` -/

/-- Split a list into consecutive chunks of `n` elements (the last chunk
may be shorter; `n = 0` behaves as chunks of one).  Models how the store
splits a listing across pages. -/
def chunkList {α : Type} (n : Nat) : List α → List (List α)
  | [] => []
  | x :: xs => (x :: xs.take (n - 1)) :: chunkList n (xs.drop (n - 1))
termination_by l => l.length
decreasing_by
  simp only [List.length_cons, List.length_drop]
  omega

/-- Whether a key starts with the prefix, character by character — the
selection criterion of the store's `list_objects_v2`. -/
def keyStartsWith (key pfx : String) : Bool :=
  pfx.toList.isPrefixOf key.toList

/-- The paginated `list_objects_v2` listing: the keys of the store that
start with the prefix, split across pages.  Pages are nonempty, so the
`if Contents in page` guard of the source never skips anything the
listing returned. -/
def listPages (store : List String) (pfx : String) (pageSize : Nat) :
    List (List String) :=
  chunkList pageSize (store.filter (fun k => keyStartsWith k pfx))

/-- One `delete_object` store call: the key, if present, is removed. -/
def delete_object (store : List String) (key : String) : List String :=
  store.erase key

/-- The nested page/object loop of `delete_s3_files.py`, lines 33-38:
delete each listed object and count it. -/
def sweepPages (pages : List (List String)) (store : List String) :
    List String × Nat :=
  pages.foldl
    (fun acc page =>
      page.foldl (fun acc2 key => (delete_object acc2.1 key, acc2.2 + 1)) acc)
    (store, 0)

/-- The whole Prefix Deleter run over a store snapshot: list all pages
under the prefix, then delete every listed key; returns the final store
contents and the printed `Deleted N objects` count. -/
def delete_s3_files_run (store : List String) (pfx : String)
    (pageSize : Nat) : List String × Nat :=
  sweepPages (listPages store pfx pageSize) store

/-! ## Supporting lemmas -/

theorem s3KeyOf_eq (pfx fid : String) : s3KeyOf pfx fid = pfx ++ fid := by
  unfold s3KeyOf
  by_cases h : pfx.isEmpty
  · have he : pfx = "" := (String.isEmpty_iff pfx).mp h
    simp [h, he]
  · simp [h]

/-- Written from the spec's words for comparison with the source: the
DeletionTarget list in which every target's key is literally the
concatenation of the prefix with that target's own file identifier — one
target per identifier of each non-filtered category, in document order,
with no separator or escaping anywhere. -/
def specTargets (fids : List (String × FileIdEntry)) (pfx : String)
    (ft : Option String) : List (String × String × String) :=
  fids.flatMap (fun p =>
    (if ft = none ∨ ft = some "nucleotideAlignment" then
      p.2.nucleotideAlignment.map (fun fid => (p.1, "nucleotideAlignment", pfx ++ fid))
    else []) ++
    (if ft = none ∨ ft = some "siloReads" then
      p.2.siloReads.map (fun fid => (p.1, "siloReads", pfx ++ fid))
    else []))

theorem collectEntry_eq_spec (pfx : String) (ft : Option String)
    (sid : String) (ids : FileIdEntry) :
    collectEntry pfx ft sid ids =
      (if ft = none ∨ ft = some "nucleotideAlignment" then
        ids.nucleotideAlignment.map (fun fid => (sid, "nucleotideAlignment", pfx ++ fid))
      else []) ++
      (if ft = none ∨ ft = some "siloReads" then
        ids.siloReads.map (fun fid => (sid, "siloReads", pfx ++ fid))
      else []) := by
  unfold collectEntry
  have h1 : (fun fid => (sid, "nucleotideAlignment", s3KeyOf pfx fid)) =
      (fun fid => (sid, "nucleotideAlignment", pfx ++ fid)) := by
    funext fid
    rw [s3KeyOf_eq]
  have h2 : (fun fid => (sid, "siloReads", s3KeyOf pfx fid)) =
      (fun fid => (sid, "siloReads", pfx ++ fid)) := by
    funext fid
    rw [s3KeyOf_eq]
  rw [h1, h2]

theorem delete_loop_calls (delOk : String → Bool) :
    ∀ files, (delete_loop delOk files).1 = files.map (fun t => t.2.2)
  | [] => rfl
  | (sid, cat, key) :: rest => by
    simp only [delete_loop, List.map_cons]
    rw [← delete_loop_calls delOk rest]

theorem delete_loop_counts (delOk : String → Bool) :
    ∀ files, (delete_loop delOk files).2.1 + (delete_loop delOk files).2.2 = files.length
  | [] => rfl
  | (sid, cat, key) :: rest => by
    have ih := delete_loop_counts delOk rest
    simp only [delete_loop, List.length_cons]
    by_cases h : delOk key <;> simp [h] <;> omega

/-! ## Claim theorems: Selective Deleter -/

/-- Claim C3 (confirmed): for every document, every prefix (including the
empty one) and every type filter, the emitted DeletionTarget list equals
the spec-side list in which each target carries key `prefix ++ fid` for
its own file identifier, byte for byte — so every emitted key is the
plain concatenation of the prefix with that target's identifier, with no
separator or escaping inserted, and no other targets exist. -/
theorem C3_collect_keys_exact (fids : List (String × FileIdEntry))
    (pfx : String) (ft : Option String) :
    collect_files_to_delete fids pfx ft = specTargets fids pfx ft := by
  induction fids with
  | nil => rfl
  | cons p rest ih =>
    obtain ⟨sid, ids⟩ := p
    rw [collect_files_to_delete, specTargets, List.flatMap_cons,
      collectEntry_eq_spec, ih]
    rfl

/-- The spec's end-to-end example document. -/
def exampleDoc : List (String × FileIdEntry) :=
  [("S1", ⟨["a1"], []⟩), ("S2", ⟨[], ["b1", "b2"]⟩)]

/-- A well-formed argument vector for the examples: the seven positional
arguments and no options. -/
def exampleArgv : List String :=
  ["file_ids.json", "bucket", "data/", "AK", "SK", "endpoint", "region"]

/-- Claim C1 (confirmed): when dry-run is not set and the target list is
nonempty, any confirmation input other than exactly `DELETE` gives zero
store delete calls and exit code 0 (the prompt was read). -/
theorem C1_decline_aborts (argv : List String)
    (fids : List (String × FileIdEntry)) (stdin : String)
    (delOk : String → Bool) (pos : List String) (opts : DeleterOpts)
    (hparse : parse_args argv = .ok (pos, opts))
    (hlen : ¬ pos.length < 7)
    (htype : badTypeFlag opts.file_type = false)
    (hdry : opts.dry_run = false)
    (hne : collect_files_to_delete fids (pos.getD 2 "") opts.file_type ≠ [])
    (hstdin : stdin ≠ "DELETE") :
    (deleter_main argv fids stdin delOk).delete_calls = [] ∧
    (deleter_main argv fids stdin delOk).exit_code = 0 ∧
    (deleter_main argv fids stdin delOk).prompted = true := by
  unfold deleter_main
  rw [hparse]
  simp at hne
  simp [hlen, htype, hdry, hne, hstdin]

/-- Witness for C1: declining with `no` on the example document. -/
theorem C1_decline_aborts_witness :
    parse_args exampleArgv = .ok (exampleArgv, ⟨false, none⟩) ∧
    ¬ (exampleArgv.length < 7) ∧
    badTypeFlag none = false ∧
    collect_files_to_delete exampleDoc (exampleArgv.getD 2 "") none ≠ [] ∧
    ("no" : String) ≠ "DELETE" ∧
    ((deleter_main exampleArgv exampleDoc "no" (fun _ => true)).delete_calls = [] ∧
     (deleter_main exampleArgv exampleDoc "no" (fun _ => true)).exit_code = 0 ∧
     (deleter_main exampleArgv exampleDoc "no" (fun _ => true)).prompted = true) :=
  ⟨rfl, by decide, rfl, by decide, by decide,
   C1_decline_aborts exampleArgv exampleDoc "no" (fun _ => true) exampleArgv
     ⟨false, none⟩ rfl (by decide) rfl rfl (by decide) (by decide)⟩

/-- Claim C2 (confirmed): with `--dry-run` set (and well-formed
arguments), for every input document, every other option, every
confirmation string and every store, the run makes zero store delete
calls, never reads the prompt, prints the total target count, and exits
normally — the store is untouched. -/
theorem C2_dry_run_is_pure (argv : List String)
    (fids : List (String × FileIdEntry)) (stdin : String)
    (delOk : String → Bool) (pos : List String) (opts : DeleterOpts)
    (hparse : parse_args argv = .ok (pos, opts))
    (hlen : ¬ pos.length < 7)
    (htype : badTypeFlag opts.file_type = false)
    (hdry : opts.dry_run = true) :
    deleter_main argv fids stdin delOk =
      ⟨0, [], false,
       some (collect_files_to_delete fids (pos.getD 2 "") opts.file_type).length,
       0, 0⟩ := by
  unfold deleter_main
  rw [hparse]
  by_cases hE : (collect_files_to_delete fids (pos.getD 2 "") opts.file_type).isEmpty <;>
    simp [hlen, htype, hdry, hE]

/-- Witness for C2: a dry run over the example document. -/
theorem C2_dry_run_is_pure_witness :
    parse_args (exampleArgv ++ ["--dry-run"]) = .ok (exampleArgv, ⟨true, none⟩) ∧
    ¬ (exampleArgv.length < 7) ∧
    badTypeFlag none = false ∧
    deleter_main (exampleArgv ++ ["--dry-run"]) exampleDoc "DELETE" (fun _ => true) =
      ⟨0, [], false,
       some (collect_files_to_delete exampleDoc (exampleArgv.getD 2 "") none).length,
       0, 0⟩ :=
  ⟨rfl, by decide, rfl,
   C2_dry_run_is_pure (exampleArgv ++ ["--dry-run"]) exampleDoc "DELETE"
     (fun _ => true) exampleArgv ⟨true, none⟩ rfl (by decide) rfl rfl⟩

/-- Argument vector with an empty `--type` value. -/
def c6Argv : List String := exampleArgv ++ ["--type", ""]

/-- Counterexample to claim C6 as stated: `--type ""` supplies a value
that is not one of the two category tags, yet the program does not print
a usage error or exit nonzero — the truthiness guard skips validation,
the empty string matches no category, and the run takes the
empty-target-list path and exits 0. -/
theorem C6_counterexample :
    (deleter_main c6Argv exampleDoc "x" (fun _ => true)).exit_code = 0 ∧
    (deleter_main c6Argv exampleDoc "x" (fun _ => true)).found_count = some 0 ∧
    (deleter_main c6Argv exampleDoc "x" (fun _ => true)).delete_calls = [] := by
  decide

/-- Claim C6 amended (the code exits 1 only for a nonempty unrecognised
`--type` value; an empty value is let through and simply matches no
category): whenever a `--type` value is present, nonempty and not one of
the two category tags, the program exits with code 1 before any store
call and without reading the prompt. -/
theorem C6_bad_type_exits_one (argv : List String)
    (fids : List (String × FileIdEntry)) (stdin : String)
    (delOk : String → Bool) (pos : List String) (opts : DeleterOpts)
    (t : String)
    (hparse : parse_args argv = .ok (pos, opts))
    (ht : opts.file_type = some t)
    (hne : t ≠ "")
    (h1 : t ≠ "nucleotideAlignment")
    (h2 : t ≠ "siloReads") :
    (deleter_main argv fids stdin delOk).exit_code = 1 ∧
    (deleter_main argv fids stdin delOk).delete_calls = [] ∧
    (deleter_main argv fids stdin delOk).prompted = false := by
  have hb : badTypeFlag opts.file_type = true := by
    simp [badTypeFlag, ht, hne, h1, h2]
  unfold deleter_main
  rw [hparse]
  by_cases hlen : pos.length < 7 <;> simp [hlen, hb]

/-- Witness for the amended C6 at `--type bogus`. -/
theorem C6_bad_type_exits_one_witness :
    parse_args (exampleArgv ++ ["--type", "bogus"]) =
      .ok (exampleArgv, ⟨false, some "bogus"⟩) ∧
    ("bogus" : String) ≠ "" ∧
    ("bogus" : String) ≠ "nucleotideAlignment" ∧
    ("bogus" : String) ≠ "siloReads" ∧
    ((deleter_main (exampleArgv ++ ["--type", "bogus"]) exampleDoc "DELETE"
        (fun _ => true)).exit_code = 1 ∧
     (deleter_main (exampleArgv ++ ["--type", "bogus"]) exampleDoc "DELETE"
        (fun _ => true)).delete_calls = [] ∧
     (deleter_main (exampleArgv ++ ["--type", "bogus"]) exampleDoc "DELETE"
        (fun _ => true)).prompted = false) :=
  ⟨rfl, by decide, by decide, by decide,
   C6_bad_type_exits_one (exampleArgv ++ ["--type", "bogus"]) exampleDoc
     "DELETE" (fun _ => true) exampleArgv ⟨false, some "bogus"⟩ "bogus"
     rfl rfl (by decide) (by decide) (by decide)⟩

/-- Claim C7 (confirmed): in the confirmed deletion loop every target is
attempted exactly once, in order (the store receives exactly the targets'
keys, errors included), and the final summary satisfies successes plus
errors equals the total target count. -/
theorem C7_loop_attempts_all (argv : List String)
    (fids : List (String × FileIdEntry)) (delOk : String → Bool)
    (pos : List String) (opts : DeleterOpts)
    (hparse : parse_args argv = .ok (pos, opts))
    (hlen : ¬ pos.length < 7)
    (htype : badTypeFlag opts.file_type = false)
    (hdry : opts.dry_run = false)
    (hne : collect_files_to_delete fids (pos.getD 2 "") opts.file_type ≠ []) :
    (deleter_main argv fids "DELETE" delOk).delete_calls =
      (collect_files_to_delete fids (pos.getD 2 "") opts.file_type).map
        (fun t => t.2.2) ∧
    (deleter_main argv fids "DELETE" delOk).deleted_count +
        (deleter_main argv fids "DELETE" delOk).error_count =
      (collect_files_to_delete fids (pos.getD 2 "") opts.file_type).length := by
  unfold deleter_main
  rw [hparse]
  simp at hne
  simp [hlen, htype, hdry, hne, delete_loop_calls, delete_loop_counts]

/-- Witness for C7: a store that fails on `data/b1` still sees all three
keys, and the summary counts add up. -/
theorem C7_loop_attempts_all_witness :
    parse_args exampleArgv = .ok (exampleArgv, ⟨false, none⟩) ∧
    ¬ (exampleArgv.length < 7) ∧
    badTypeFlag none = false ∧
    collect_files_to_delete exampleDoc (exampleArgv.getD 2 "") none ≠ [] ∧
    ((deleter_main exampleArgv exampleDoc "DELETE" (fun k => !(k == "data/b1"))).delete_calls =
      (collect_files_to_delete exampleDoc (exampleArgv.getD 2 "") none).map
        (fun t => t.2.2) ∧
     (deleter_main exampleArgv exampleDoc "DELETE" (fun k => !(k == "data/b1"))).deleted_count +
        (deleter_main exampleArgv exampleDoc "DELETE" (fun k => !(k == "data/b1"))).error_count =
      (collect_files_to_delete exampleDoc (exampleArgv.getD 2 "") none).length) :=
  ⟨rfl, by decide, rfl, by decide,
   C7_loop_attempts_all exampleArgv exampleDoc (fun k => !(k == "data/b1"))
     exampleArgv ⟨false, none⟩ rfl (by decide) rfl rfl (by decide)⟩

/-! ## Claim theorems: Fetcher -/

/-- A record whose `nucleotideAlignment` field is `"[1]"`: valid JSON, but
not the expected array of objects. -/
def c5Record : Json :=
  .obj [("metadata", .obj
    [("submissionId", .str "S1"), ("nucleotideAlignment", .str "[1]")])]

/-- Counterexample to claim C5 as stated: the field value `"[1]"` is
malformed data for the expected schema — it parses as JSON but is a list
of numbers, not of objects — and extraction raises `AttributeError`
(`1 .get` in the comprehension) instead of yielding `[]`. -/
theorem C5_counterexample :
    extract_file_ids [c5Record] = .error .attributeError := by
  rfl

/-- Claim C5 amended (the fail-soft guarantee covers a field value that is
absent, falsy, a string that fails to parse as JSON, or a truthy
non-string — but not a string parsing to JSON of the wrong shape, where
extraction can raise): for every such value the parsed field is `[]` and
the comprehension yields `[]` without an error. -/
theorem C5_amended_failsoft (v : Json)
    (h : ∀ s, v = Json.str s → s = "" ∨ json_loads s = none) :
    parse_file_field v = .arr [] ∧ fileIdsOf (parse_file_field v) = .ok [] := by
  have hp : parse_file_field v = .arr [] := by
    unfold parse_file_field
    cases v with
    | str s =>
      by_cases hs : s = ""
      · subst hs; rfl
      · rcases h s rfl with h1 | h1
        · exact absurd h1 hs
        · by_cases hf : Json.falsy (.str s) = true <;> simp [hf, h1]
    | null => simp [Json.falsy]
    | bool b => cases b <;> simp [Json.falsy]
    | num q => by_cases hq : q = 0 <;> simp [Json.falsy, hq]
    | arr xs => cases xs <;> simp [Json.falsy]
    | obj fs => cases fs <;> simp [Json.falsy]
    | nonfinite nf => simp [Json.falsy]
  exact ⟨hp, by rw [hp]; rfl⟩

/-- Witness for the amended C5: `"{"` fails to parse, so the field
yields `[]` and no error. -/
theorem C5_amended_failsoft_witness :
    (∀ s, Json.str "\x7b" = Json.str s → s = "" ∨ json_loads s = none) ∧
    (parse_file_field (.str "\x7b") = .arr [] ∧
     fileIdsOf (parse_file_field (.str "\x7b")) = .ok []) :=
  ⟨fun s hs => by cases hs; exact Or.inr rfl,
   C5_amended_failsoft (.str "\x7b") (fun s hs => by cases hs; exact Or.inr rfl)⟩

/-- The contribution of one parsed file entry to the comprehension: its
truthy `fileId`, if any (non-dict entries contribute nothing — but they
raise, so they never reach an `ok` result). -/
def truthyFileId (f : Json) : Option Json :=
  match f with
  | .obj fs =>
    if Json.falsy (Json.get fs "fileId") then none else some (Json.get fs "fileId")
  | _ => none

theorem truthyFileId_of_getFileId {f v : Json} (h : getFileId f = .ok v) :
    truthyFileId f = if Json.falsy v then none else some v := by
  cases f <;> simp [getFileId] at h
  case obj fs =>
    rw [truthyFileId, h]

/-- Claim C10 (confirmed): when the file-id comprehension succeeds, its
result is exactly the in-order truthy `fileId` values of the parsed
array — entries whose `fileId` is absent, null, or empty (falsy) are
silently dropped, the rest keep their input order, and every identifier
in the output is truthy, hence non-empty. -/
theorem C10_kept_ids_truthy : ∀ (xs ids : List Json),
    collectFileIds xs = .ok ids →
    ids = xs.filterMap truthyFileId ∧ ∀ v ∈ ids, Json.falsy v = false := by
  intro xs
  induction xs with
  | nil =>
    intro ids h
    simp [collectFileIds] at h
    subst h
    simp
  | cons f rest ih =>
    intro ids h
    unfold collectFileIds at h
    cases hf : getFileId f with
    | error e => rw [hf] at h; cases h
    | ok v =>
      rw [hf] at h
      cases hr : collectFileIds rest with
      | error e => rw [hr] at h; cases h
      | ok tail =>
        rw [hr] at h
        injection h with h
        obtain ⟨ih1, ih2⟩ := ih tail hr
        rw [List.filterMap_cons, truthyFileId_of_getFileId hf]
        by_cases hv : Json.falsy v = true
        · subst h
          simp only [hv, if_true]
          exact ⟨ih1, ih2⟩
        · subst h
          rw [Bool.not_eq_true] at hv
          simp only [hv, Bool.false_eq_true, if_false]
          constructor
          · rw [ih1]
          · intro w hw
            rcases List.mem_cons.mp hw with rfl | hw
            · exact hv
            · exact ih2 w hw

/-- Witness for C10: a parsed array with one good entry, one empty
`fileId`, one missing `fileId` and one null `fileId` keeps only the good
identifier. -/
theorem C10_kept_ids_truthy_witness :
    collectFileIds
      [.obj [("fileId", .str "a1")], .obj [("fileId", .str "")],
       .obj [("name", .str "x")], .obj [("fileId", .null)]] =
      .ok [.str "a1"] ∧
    (([.str "a1"] : List Json) =
      ([.obj [("fileId", .str "a1")], .obj [("fileId", .str "")],
        .obj [("name", .str "x")], .obj [("fileId", .null)]] :
        List Json).filterMap truthyFileId ∧
     ∀ v ∈ ([.str "a1"] : List Json), Json.falsy v = false) :=
  ⟨by rfl, C10_kept_ids_truthy _ _ (by rfl)⟩

/-! ## Claim theorems: Prefix Deleter -/

theorem chunkList_flatten {α : Type} (n : Nat) :
    ∀ l : List α, (chunkList n l).flatten = l
  | [] => by simp [chunkList]
  | x :: xs => by
    rw [chunkList, List.flatten_cons, chunkList_flatten n (xs.drop (n - 1)),
      List.cons_append, List.take_append_drop]
termination_by l => l.length
decreasing_by simp only [List.length_cons, List.length_drop]; omega

theorem sweepPages_flatten (pages : List (List String)) (store : List String) :
    sweepPages pages store =
      pages.flatten.foldl (fun acc key => (delete_object acc.1 key, acc.2 + 1))
        (store, 0) :=
  (List.foldl_flatten _ _ pages).symm

theorem foldl_delete_pair :
    ∀ (ks : List String) (st : List String) (c : Nat),
      ks.foldl (fun acc key => (delete_object acc.1 key, acc.2 + 1)) (st, c) =
        (ks.foldl delete_object st, c + ks.length)
  | [], st, c => by simp
  | k :: ks, st, c => by
    rw [List.foldl_cons, List.foldl_cons]
    rw [foldl_delete_pair ks (delete_object st k) (c + 1)]
    simp only [List.length_cons]
    rw [Nat.add_assoc, Nat.add_comm 1 ks.length]

theorem foldl_erase_eq_filter :
    ∀ (ks st : List String), st.Nodup →
      ks.foldl delete_object st = st.filter (fun k => !(ks.contains k))
  | [], st, _ => by simp
  | k :: ks, st, h => by
    rw [List.foldl_cons]
    rw [foldl_erase_eq_filter ks (delete_object st k) (List.Nodup.erase k h)]
    rw [delete_object, List.Nodup.erase_eq_filter h k, List.filter_filter]
    apply List.filter_congr
    intro x _
    by_cases hxk : x = k <;> simp [hxk, Bool.and_comm]

/-- Claim C8 (confirmed): over any store snapshot (keys are unique in a
store), for any page size, the Prefix Deleter deletes exactly the keys
the paginated listing yields under the prefix — every key with the
prefix, across all pages — leaves every other object untouched, and its
final count equals the number of deleted objects. -/
theorem C8_prefix_sweep_exact (store : List String) (pfx : String)
    (pageSize : Nat) (hnd : store.Nodup) :
    delete_s3_files_run store pfx pageSize =
      (store.filter (fun k => !(keyStartsWith k pfx)),
       (store.filter (fun k => keyStartsWith k pfx)).length) := by
  rw [delete_s3_files_run, sweepPages_flatten, listPages, chunkList_flatten,
    foldl_delete_pair, foldl_erase_eq_filter _ _ hnd]
  refine Prod.ext ?_ (by simp)
  apply List.filter_congr
  intro x hx
  by_cases hp : keyStartsWith x pfx = true
  · have hmem : x ∈ store.filter (fun k => keyStartsWith k pfx) :=
      List.mem_filter.mpr ⟨hx, hp⟩
    have hcon : (store.filter (fun k => keyStartsWith k pfx)).contains x = true :=
      List.elem_iff.mpr hmem
    simp only [hcon, hp]
  · have hmem : x ∉ store.filter (fun k => keyStartsWith k pfx) := fun hc =>
      absurd (List.mem_filter.mp hc).2 hp
    have hcon : (store.filter (fun k => keyStartsWith k pfx)).contains x = false := by
      rw [Bool.eq_false_iff]
      intro hc
      exact hmem (List.elem_iff.mp hc)
    rw [Bool.not_eq_true] at hp
    simp only [hcon, hp]

/-- Witness for C8 at the spec's example: store `p/1, p/2, q/1`, prefix
`p/`, page size 2 — exactly `p/1` and `p/2` are deleted, `q/1` remains,
and the count is 2. -/
theorem C8_prefix_sweep_exact_witness :
    (["p/1", "p/2", "q/1"] : List String).Nodup ∧
    delete_s3_files_run ["p/1", "p/2", "q/1"] "p/" 2 = (["q/1"], 2) :=
  ⟨by decide,
   (C8_prefix_sweep_exact ["p/1", "p/2", "q/1"] "p/" 2 (by decide)).trans
     (by decide)⟩

/-! ## Dictionary lemmas for the extraction mapping -/

theorem find?_replace_self (k : Json) (v : FileLists) :
    ∀ d : List (Json × FileLists),
      d.any (fun p => p.1 == k) = true →
      (d.map (fun p => if p.1 == k then (k, v) else p)).find?
          (fun p => p.1 == k) = some (k, v)
  | [], h => by simp at h
  | p :: rest, h => by
    by_cases hp : p.1 = k
    · simp [hp]
    · have h2 : rest.any (fun p => p.1 == k) = true := by
        rw [List.any_cons] at h
        simpa [hp] using h
      simpa [hp] using find?_replace_self k v rest h2

theorem find?_replace_other (k : Json) (v : FileLists) (k2 : Json)
    (hne : k2 ≠ k) :
    ∀ d : List (Json × FileLists),
      (d.map (fun p => if p.1 == k then (k, v) else p)).find?
          (fun p => p.1 == k2) = d.find? (fun p => p.1 == k2)
  | [] => rfl
  | p :: rest => by
    have hk2 : ¬ (k = k2) := fun he => hne he.symm
    by_cases hp : p.1 = k
    · have h1 : ((if p.1 == k then (k, v) else p) : Json × FileLists) = (k, v) := by
        simp [hp]
      rw [List.map_cons, h1,
        List.find?_cons_of_neg _ (by simp [hk2]),
        List.find?_cons_of_neg _ (by simp [hp, hk2]),
        find?_replace_other k v k2 hne rest]
    · have h1 : ((if p.1 == k then (k, v) else p) : Json × FileLists) = p := by
        simp [hp]
      rw [List.map_cons, h1]
      by_cases hp2 : p.1 = k2
      · rw [List.find?_cons_of_pos _ (by simp [hp2]),
          List.find?_cons_of_pos _ (by simp [hp2])]
      · rw [List.find?_cons_of_neg _ (by simp [hp2]),
          List.find?_cons_of_neg _ (by simp [hp2]),
          find?_replace_other k v k2 hne rest]

theorem dictFind_insert (d : List (Json × FileLists)) (k : Json)
    (v : FileLists) (k2 : Json) :
    dictFind (pyDictInsert d k v) k2 = if k2 = k then some v else dictFind d k2 := by
  unfold pyDictInsert dictFind
  by_cases hany : d.any (fun p => p.1 == k) = true
  · rw [if_pos hany]
    by_cases hk : k2 = k
    · subst hk
      rw [find?_replace_self k2 v d hany]
      simp
    · rw [find?_replace_other k v k2 hk d]
      simp [hk]
  · rw [if_neg hany, List.find?_append]
    by_cases hk : k2 = k
    · subst hk
      have hnone : d.find? (fun p => p.1 == k2) = none := by
        rw [List.find?_eq_none]
        intro p hp hbeq
        exact hany (List.any_eq_true.mpr ⟨p, hp, hbeq⟩)
      rw [hnone]
      simp
    · have hk2 : ¬ (k = k2) := fun he => hk he.symm
      simp [hk, hk2]

theorem keys_insert_nodup (d : List (Json × FileLists)) (k : Json)
    (v : FileLists) (h : (d.map (fun p => p.1)).Nodup) :
    ((pyDictInsert d k v).map (fun p => p.1)).Nodup := by
  unfold pyDictInsert
  by_cases hany : d.any (fun p => p.1 == k) = true
  · rw [if_pos hany, List.map_map]
    have hfun :
        ((fun p : Json × FileLists => p.1) ∘
          (fun p => if p.1 == k then (k, v) else p)) =
          (fun p : Json × FileLists => p.1) := by
      funext p
      by_cases hp : p.1 = k <;> simp [hp, Function.comp]
    rw [hfun]
    exact h
  · rw [if_neg hany, List.map_append, List.nodup_append]
    refine ⟨h, by simp, ?_⟩
    intro a ha hb
    simp only [List.map_cons, List.map_nil, List.mem_singleton] at hb
    subst hb
    obtain ⟨p, hp, hpk⟩ := List.mem_map.mp ha
    exact hany (List.any_eq_true.mpr ⟨p, hp, by simp [hpk]⟩)

theorem dictFind_eq_none_iff (d : List (Json × FileLists)) (k : Json) :
    dictFind d k = none ↔ k ∉ d.map (fun p => p.1) := by
  unfold dictFind
  cases hf : d.find? (fun p => p.1 == k) with
  | none =>
    rw [List.find?_eq_none] at hf
    simp only [true_iff]
    rintro hmem
    obtain ⟨p, hp, hpk⟩ := List.mem_map.mp hmem
    exact hf p hp (by simp [hpk])
  | some p =>
    have hpk : p.1 = k := by
      have := List.find?_some hf
      simpa using this
    have hmem : k ∈ d.map (fun p => p.1) :=
      List.mem_map.mpr ⟨p, List.mem_of_find?_eq_some hf, hpk⟩
    simp [hmem]

/-- The entry of the last record among `records` that stores key `k`.
Python dict assignment makes the last write win, so this is what the
final mapping associates with `k`. -/
def lastEntryFor (records : List Json) (k : Json) : Option FileLists :=
  ((qualifyingEntries records).reverse.find? (fun p => p.1 == k)).map
    (fun p => p.2)

theorem extractGo_dictFind :
    ∀ (records : List Json) (init d : List (Json × FileLists)),
      extractGo init records = .ok d → ∀ k : Json,
        dictFind d k = (lastEntryFor records k).or (dictFind init k)
  | [], init, d, h, k => by
    rw [extractGo] at h
    injection h with h
    subst h
    simp [lastEntryFor, qualifyingEntries]
  | r :: rest, init, d, h, k => by
    rw [extractGo] at h
    cases hre : recordEntry r with
    | error e => rw [hre] at h; cases h
    | ok x =>
      rw [hre] at h
      cases x with
      | none =>
        rw [extractGo_dictFind rest init d h k]
        unfold lastEntryFor qualifyingEntries
        rw [List.filterMap_cons]
        simp only [hre]
      | some kv =>
        obtain ⟨k0, v0⟩ := kv
        rw [extractGo_dictFind rest (pyDictInsert init k0 v0) d h k,
          dictFind_insert]
        unfold lastEntryFor qualifyingEntries
        rw [List.filterMap_cons]
        simp only [hre, List.reverse_cons, List.find?_append]
        cases hfind :
            ((List.filterMap (fun r => match recordEntry r with
              | .ok (some kv) => some kv
              | _ => none) rest).reverse.find? (fun p => p.1 == k)) with
        | some p => simp
        | none =>
          by_cases hk : k = k0
          · subst hk
            simp
          · have hk0 : ¬ (k0 = k) := fun he => hk he.symm
            simp [hk, hk0]

theorem extractGo_keys_nodup :
    ∀ (records : List Json) (init d : List (Json × FileLists)),
      (init.map (fun p => p.1)).Nodup → extractGo init records = .ok d →
      (d.map (fun p => p.1)).Nodup
  | [], init, d, hn, h => by
    rw [extractGo] at h
    injection h with h
    subst h
    exact hn
  | r :: rest, init, d, hn, h => by
    rw [extractGo] at h
    cases hre : recordEntry r with
    | error e => rw [hre] at h; cases h
    | ok x =>
      rw [hre] at h
      cases x with
      | none => exact extractGo_keys_nodup rest init d hn h
      | some kv =>
        exact extractGo_keys_nodup rest _ d
          (keys_insert_nodup init kv.1 kv.2 hn) h

theorem extractGo_all_ok :
    ∀ (records : List Json) (init d : List (Json × FileLists)),
      extractGo init records = .ok d →
      ∀ r ∈ records, ∃ x, recordEntry r = .ok x
  | [], _, _, _, r, hr => absurd hr (List.not_mem_nil r)
  | r0 :: rest, init, d, h, r, hr => by
    rw [extractGo] at h
    cases hre : recordEntry r0 with
    | error e => rw [hre] at h; cases h
    | ok x =>
      rw [hre] at h
      rcases List.mem_cons.mp hr with rfl | hr
      · exact ⟨x, hre⟩
      · cases x with
        | none => exact extractGo_all_ok rest init d h r hr
        | some kv => exact extractGo_all_ok rest _ d h r hr

theorem submissionIdOf_recordEntry :
    ∀ (r : Json) (x : Option (Json × FileLists)),
      recordEntry r = .ok x → submissionIdOf r = x.map (fun kv => kv.1) := by
  intro r x h
  cases r with
  | obj fields =>
    rw [recordEntry] at h
    rw [submissionIdOf]
    cases hm : Json.getD fields "metadata" (.obj []) with
    | obj mfields =>
      rw [hm] at h
      dsimp only at h ⊢
      by_cases hf : Json.falsy (Json.get mfields "submissionId") = true
      · rw [if_pos hf] at h
        injection h with h
        subst h
        simp [hf]
      · rw [if_neg hf] at h
        cases ha : fileIdsOf (parse_file_field (Json.get mfields "nucleotideAlignment")) with
        | error e => rw [ha] at h; cases h
        | ok aIds =>
          rw [ha] at h
          dsimp only at h
          cases hs : fileIdsOf (parse_file_field (Json.get mfields "siloReads")) with
          | error e => rw [hs] at h; cases h
          | ok sIds =>
            rw [hs] at h
            dsimp only at h
            by_cases hu : Json.unhashable (Json.get mfields "submissionId") = true
            · rw [if_pos hu] at h; cases h
            · rw [if_neg hu] at h
              injection h with h
              subst h
              simp [hf]
    | null => rw [hm] at h; cases h
    | bool b => rw [hm] at h; cases h
    | num q => rw [hm] at h; cases h
    | str s => rw [hm] at h; cases h
    | arr xs => rw [hm] at h; cases h
    | nonfinite nf => rw [hm] at h; cases h
  | null => simp [recordEntry] at h
  | bool b => simp [recordEntry] at h
  | num q => simp [recordEntry] at h
  | str s => simp [recordEntry] at h
  | arr xs => simp [recordEntry] at h
  | nonfinite nf => simp [recordEntry] at h

theorem qualifying_keys_eq :
    ∀ records : List Json,
      (∀ r ∈ records, ∃ x, recordEntry r = .ok x) →
      (qualifyingEntries records).map (fun p => p.1) =
        records.filterMap submissionIdOf
  | [], _ => rfl
  | r :: rest, hok => by
    obtain ⟨x, hx⟩ := hok r (List.mem_cons_self r rest)
    have htail := qualifying_keys_eq rest
      (fun r2 hr2 => hok r2 (List.mem_cons_of_mem r hr2))
    rw [qualifyingEntries, List.filterMap_cons, List.filterMap_cons,
      submissionIdOf_recordEntry r x hx]
    cases x with
    | none =>
      simp only [hx, Option.map_none']
      exact htail
    | some kv =>
      simp only [hx, Option.map_some', List.map_cons]
      rw [show List.filterMap
          (fun r => match recordEntry r with
            | .ok (some kv) => some kv
            | _ => none) rest = qualifyingEntries rest from rfl, htail]

theorem lastEntryFor_eq_none_iff (records : List Json) (k : Json) :
    lastEntryFor records k = none ↔
      k ∉ (qualifyingEntries records).map (fun p => p.1) := by
  unfold lastEntryFor
  rw [Option.map_eq_none', List.find?_eq_none]
  constructor
  · intro h hmem
    obtain ⟨p, hp, hpk⟩ := List.mem_map.mp hmem
    exact h p (List.mem_reverse.mpr hp) (by simp [hpk])
  · intro h p hp hpk
    exact h (List.mem_map.mpr
      ⟨p, List.mem_reverse.mp hp, by simpa using hpk⟩)

/-- Claim C9 (confirmed): the output mapping has no duplicate keys —
exactly one entry per submission id — and the entry stored for any key is
the one contributed by the last input record carrying that submission id
(later records overwrite earlier ones). -/
theorem C9_last_record_wins (records : List Json)
    (d : List (Json × FileLists)) (h : extract_file_ids records = .ok d) :
    (d.map (fun p => p.1)).Nodup ∧
    ∀ k : Json, dictFind d k = lastEntryFor records k := by
  refine ⟨extractGo_keys_nodup records [] d (by simp) h, fun k => ?_⟩
  rw [extractGo_dictFind records [] d h k,
    show dictFind [] k = none from rfl, Option.or_none]

/-- Two records with the same `submissionId` `S1`: the first carries a
`nucleotideAlignment` identifier, the second a `siloReads` identifier. -/
def c9Records : List Json :=
  [.obj [("metadata", .obj [("submissionId", .str "S1"),
     ("nucleotideAlignment", .str "[\x7b\"fileId\": \"a1\"\x7d]")])],
   .obj [("metadata", .obj [("submissionId", .str "S1"),
     ("siloReads", .str "[\x7b\"fileId\": \"b1\"\x7d]")])]]

/-- The mapping the Fetcher produces for `c9Records`: one entry, from the
second (last) record. -/
def c9Dict : List (Json × FileLists) := [(.str "S1", ⟨[], [.str "b1"]⟩)]

/-- Witness for C9: on two records sharing `S1`, the mapping has one
entry and it is the second record's. -/
theorem C9_last_record_wins_witness :
    extract_file_ids c9Records = .ok c9Dict ∧
    (c9Dict.map (fun p => p.1)).Nodup ∧
    dictFind c9Dict (.str "S1") = lastEntryFor c9Records (.str "S1") ∧
    lastEntryFor c9Records (.str "S1") =
      some ⟨[], [.str "b1"]⟩ :=
  ⟨rfl, (C9_last_record_wins c9Records c9Dict rfl).1,
   (C9_last_record_wins c9Records c9Dict rfl).2 (.str "S1"), rfl⟩

/-- Two valid records that share the submission id `T1`. -/
def c4Records : List Json :=
  [.obj [("metadata", .obj [("submissionId", .str "T1"),
     ("nucleotideAlignment", .str "[\x7b\"fileId\": \"x1\"\x7d]")])],
   .obj [("metadata", .obj [("submissionId", .str "T1")])]]

/-- The mapping the Fetcher produces for `c4Records`. -/
def c4Dict : List (Json × FileLists) := [(.str "T1", ⟨[], []⟩)]

/-- Counterexample to claim C4 as stated: two input lines carry the
non-empty submission id `T1`, but the output mapping has one key, not
two — duplicate ids collapse, so the key count can be smaller than the
count of lines with a non-empty `submissionId`. -/
theorem C4_counterexample :
    extract_file_ids c4Records = .ok c4Dict ∧
    c4Dict.length = 1 ∧
    (c4Records.filterMap submissionIdOf).length = 2 ∧
    (1 : Nat) ≠ 2 :=
  ⟨rfl, rfl, rfl, by decide⟩

/-- Claim C4 amended (key count equals the number of distinct qualifying
submission ids, not the number of qualifying lines): every key of the
output mapping comes from a line whose metadata carries a truthy
`submissionId`, and the number of keys equals the number of distinct such
ids.  When no id repeats, this is the number of qualifying lines. -/
theorem C4_amended_distinct_key_count (records : List Json)
    (d : List (Json × FileLists)) (h : extract_file_ids records = .ok d) :
    (∀ k ∈ d.map (fun p => p.1), k ∈ records.filterMap submissionIdOf) ∧
    d.length = (records.filterMap submissionIdOf).toFinset.card := by
  have hok := extractGo_all_ok records [] d h
  have hq := qualifying_keys_eq records hok
  have hnd := extractGo_keys_nodup records [] d (by simp) h
  have hfind : ∀ k, dictFind d k = lastEntryFor records k := fun k => by
    rw [extractGo_dictFind records [] d h k,
      show dictFind [] k = none from rfl, Option.or_none]
  have hmemiff : ∀ k, k ∈ d.map (fun p => p.1) ↔
      k ∈ records.filterMap submissionIdOf := by
    intro k
    rw [← hq]
    constructor
    · intro hk
      by_contra hnk
      have h0 : lastEntryFor records k = none :=
        (lastEntryFor_eq_none_iff records k).mpr hnk
      have h1 : dictFind d k = none := by rw [hfind k, h0]
      exact ((dictFind_eq_none_iff d k).mp h1) hk
    · intro hk
      by_contra hnk
      have h1 : dictFind d k = none := (dictFind_eq_none_iff d k).mpr hnk
      rw [hfind k] at h1
      exact ((lastEntryFor_eq_none_iff records k).mp h1) hk
  refine ⟨fun k hk => (hmemiff k).mp hk, ?_⟩
  have h1 : d.length = (d.map (fun p => p.1)).length :=
    (List.length_map d _).symm
  have h2 : (d.map (fun p => p.1)).toFinset.card =
      (d.map (fun p => p.1)).length :=
    List.toFinset_card_of_nodup hnd
  have h3 : (d.map (fun p => p.1)).toFinset =
      (records.filterMap submissionIdOf).toFinset := by
    apply Finset.ext
    intro a
    rw [List.mem_toFinset, List.mem_toFinset]
    exact hmemiff a
  rw [h1, ← h2, h3]

/-- Witness for the amended C4: two lines with id `T1` and one line
without a submission id give a mapping with exactly one key. -/
theorem C4_amended_distinct_key_count_witness :
    extract_file_ids c4Records = .ok c4Dict ∧
    ((∀ k ∈ c4Dict.map (fun p => p.1),
        k ∈ c4Records.filterMap submissionIdOf) ∧
     c4Dict.length = (c4Records.filterMap submissionIdOf).toFinset.card) :=
  ⟨rfl, C4_amended_distinct_key_count c4Records c4Dict rfl⟩
